import Mathlib

/-!
Verification of the Pokers decision engine: a shallow embedding of the
card primitives (step1_card_system_advanced.cpp), the 7-card hand
evaluator (step2_3_perfect_evaluator.cpp), the Monte Carlo equity
calculator (step4_5_optimized_monte_carlo.cpp), the CFR engine
(step6_7_cfr_engine_complete.cpp), the MCTS engine
(step8_mcts_complete.cpp) and the EQR layer (step9_eqr_complete.cpp),
together with theorems settling the specification claims.

Modelling conventions:
* machine integers are `Nat` with explicit truncation (`% 65536` for a
  `uint16_t` result, `% 2 ^ 64` for `uint64_t` arithmetic);
* C++ `double` values are modelled as exact rationals `ℚ`;
* `std::map` objects are modelled as association lists with unique keys,
  `operator[]` as lookup-with-default-0 plus insert-if-absent.
-/

namespace PokerCore

/-- Card representation from step1_card_system_advanced.cpp: a value in
[0, 52), rank = card % 13, suit = card / 13. -/
abbrev Card := Nat

def RANK_COUNT : Nat := 13

def DECK_SIZE : Nat := 52

def get_rank (c : Card) : Nat := c % RANK_COUNT

def get_suit (c : Card) : Nat := c / RANK_COUNT

def make_card (rank suit : Nat) : Card := suit * RANK_COUNT + rank

def card_to_mask (c : Card) : Nat := 1 <<< c

def has_card (mask : Nat) (c : Card) : Bool := mask &&& card_to_mask c != 0

end PokerCore

namespace PokerEval

open PokerCore

def RANK_STRAIGHT_FLUSH : Nat := 8

def RANK_FOUR_OF_KIND : Nat := 7

def RANK_FULL_HOUSE : Nat := 6

def RANK_FLUSH : Nat := 5

def RANK_STRAIGHT : Nat := 4

def RANK_THREE_OF_KIND : Nat := 3

def RANK_TWO_PAIR : Nat := 2

def RANK_ONE_PAIR : Nat := 1

def RANK_HIGH_CARD : Nat := 0

def popcount_go : Nat → Nat → Nat
  | _, 0 => 0
  | 0, _ + 1 => 0
  | fuel + 1, n + 1 => (n + 1) % 2 + popcount_go fuel ((n + 1) / 2)

/-- Population count of a natural number, `__builtin_popcount`.  The
first argument of `popcount_go` is structural fuel (`n` halvings always
suffice), keeping the definition kernel-reducible. -/
def popcount (n : Nat) : Nat := popcount_go n n

/-- The rank indices scanned in descending order, as the C++ loops
`for (int r = 12; r >= 0; --r)`. -/
def rank_indices_desc : List Nat := [12, 11, 10, 9, 8, 7, 6, 5, 4, 3, 2, 1, 0]

/-- `EvaluatorTables::is_straight` (and the identical
`HandEvaluator::is_straight_from_mask`): a 5-bit window test for
`i = 8 .. 0`, plus the wheel test `mask & 0x100F == 0x100F`. -/
def is_straight (mask : Nat) : Bool :=
  ((List.range 9).any fun k => ((mask >>> (8 - k)) &&& 0x1F) == 0x1F) ||
    (mask &&& 0x100F == 0x100F)

/-- The loop indices `i = 12 .. 3` of `EvaluatorTables::get_highest_straight`. -/
def straight_loop_indices : List Int := [12, 11, 10, 9, 8, 7, 6, 5, 4, 3]

/-- The 5-bit window test `((mask >> s) & 0x1F) == 0x1F` for a possibly
negative shift amount `s`, as evaluated inside
`EvaluatorTables::get_highest_straight`.  A right shift by a negative
amount is undefined behavior in C++ (it is reached at loop index `i = 3`,
where `s = -1`); this model makes the test come out `false` there, which
matches the function's observed fallthrough behavior on common targets. -/
def shift_window_test (mask : Nat) (s : Int) : Bool :=
  if 0 ≤ s then ((mask >>> s.toNat) &&& 0x1F) == 0x1F else false

def EvaluatorTables.get_highest_straight_go (mask : Nat) : List Int → Int
  | [] => 3
  | i :: rest =>
    if shift_window_test mask (i - 4) then i
    else EvaluatorTables.get_highest_straight_go mask rest

/-- `EvaluatorTables::get_highest_straight`: scans `i = 12` down to `3`,
testing the window at shift `i - 4`, and returns 3 (the wheel) after the
loop. -/
def EvaluatorTables.get_highest_straight (mask : Nat) : Int :=
  EvaluatorTables.get_highest_straight_go mask straight_loop_indices

def EvaluatorTables.executed_shifts_go (mask : Nat) : List Int → List Int
  | [] => []
  | i :: rest =>
    (i - 4) ::
      (if shift_window_test mask (i - 4) then []
       else EvaluatorTables.executed_shifts_go mask rest)

/-- The sequence of shift amounts `i - 4` that the loop of
`EvaluatorTables::get_highest_straight` actually evaluates on `mask`
(it stops after the first successful window test). -/
def EvaluatorTables.executed_shifts (mask : Nat) : List Int :=
  EvaluatorTables.executed_shifts_go mask straight_loop_indices

def get_top_cards_go (mask cnt : Nat) : List Nat → Nat → Nat → Nat
  | [], result, _ => result
  | i :: rest, result, found =>
    if found < cnt then
      if mask &&& (1 <<< i) != 0 then
        get_top_cards_go mask cnt rest (result ||| (i <<< (found * 4))) (found + 1)
      else get_top_cards_go mask cnt rest result found
    else result

/-- `EvaluatorTables::get_top_cards`: packs the `cnt` highest set rank
bits of `mask` as 4-bit fields, the highest rank in the lowest nibble. -/
def get_top_cards (mask cnt : Nat) : Nat :=
  get_top_cards_go mask cnt rank_indices_desc 0 0

/-- `EvaluatorTables::evaluate_flush_hand`.  The C++ function returns
`uint16_t`, so the computed `int` is truncated mod 2^16. -/
def EvaluatorTables.evaluate_flush_hand (mask : Nat) : Nat :=
  if is_straight mask then
    ((RANK_STRAIGHT_FLUSH <<< 12) |||
      ((EvaluatorTables.get_highest_straight mask).toNat <<< 8)) % 65536
  else ((RANK_FLUSH <<< 12) ||| get_top_cards mask 5) % 65536

/-- The `flush_lookup` table: entry `i` is set to `evaluate_flush_hand i`
for every `i < 8192` by `init_flush_lookup`. -/
def flush_lookup (i : Nat) : Nat := EvaluatorTables.evaluate_flush_hand i

/-- `EvaluatorTables::evaluate_unique5` (a `uint16_t` return as well). -/
def EvaluatorTables.evaluate_unique5 (mask : Nat) : Nat :=
  if is_straight mask then
    ((RANK_STRAIGHT <<< 12) |||
      ((EvaluatorTables.get_highest_straight mask).toNat <<< 8)) % 65536
  else ((RANK_HIGH_CARD <<< 12) ||| get_top_cards mask 5) % 65536

/-- The `unique5_lookup` table: `init_unique5_lookup` only fills entries
whose index has popcount 5; all other entries keep the zero value that
static storage duration guarantees for the global `g_tables` object. -/
def unique5_lookup (i : Nat) : Nat :=
  if popcount i == 5 then EvaluatorTables.evaluate_unique5 i else 0

def HandEvaluator.suit_mask (cards : List Card) (s : Nat) : Nat :=
  cards.foldl (fun m c => if get_suit c == s then m ||| (1 <<< get_rank c) else m) 0

def HandEvaluator.rank_count (cards : List Card) (r : Nat) : Nat :=
  (cards.filter fun c => get_rank c == r).length

def HandEvaluator.rank_mask (cards : List Card) : Nat :=
  cards.foldl (fun m c => m ||| (1 <<< get_rank c)) 0

/-- `HandEvaluator::is_straight_from_mask`, a verbatim copy of
`EvaluatorTables::is_straight`. -/
def HandEvaluator.is_straight_from_mask (mask : Nat) : Bool := is_straight mask

def HandEvaluator.get_straight_high_go (mask : Nat) : List Nat → Nat
  | [] => 3
  | i :: rest =>
    if ((mask >>> (i - 4)) &&& 0x1F) == 0x1F then i
    else HandEvaluator.get_straight_high_go mask rest

/-- `HandEvaluator::get_straight_high`: like the table version but the
loop stops at `i = 4`, so every shift amount is non-negative. -/
def HandEvaluator.get_straight_high (mask : Nat) : Nat :=
  HandEvaluator.get_straight_high_go mask [12, 11, 10, 9, 8, 7, 6, 5, 4]

def HandEvaluator.get_highest_kicker_go (counts : Nat → Nat) (exclude : Int) :
    List Nat → Nat
  | [] => 0
  | r :: rest =>
    if (r : Int) ≠ exclude ∧ 0 < counts r then r
    else HandEvaluator.get_highest_kicker_go counts exclude rest

def HandEvaluator.get_highest_kicker (counts : Nat → Nat) (exclude : Int) : Nat :=
  HandEvaluator.get_highest_kicker_go counts exclude rank_indices_desc

def HandEvaluator.get_highest_kicker_exclude_go (counts : Nat → Nat)
    (ex1 ex2 : Int) : List Nat → Nat
  | [] => 0
  | r :: rest =>
    if (r : Int) ≠ ex1 ∧ (r : Int) ≠ ex2 ∧ 0 < counts r then r
    else HandEvaluator.get_highest_kicker_exclude_go counts ex1 ex2 rest

def HandEvaluator.get_highest_kicker_exclude (counts : Nat → Nat)
    (ex1 ex2 : Int) : Nat :=
  HandEvaluator.get_highest_kicker_exclude_go counts ex1 ex2 rank_indices_desc

def HandEvaluator.get_top_kickers_go (counts : Nat → Nat) (exclude : Int)
    (n : Nat) : List Nat → Nat → Nat → Nat
  | [], result, _ => result
  | r :: rest, result, found =>
    if found < n then
      if (r : Int) ≠ exclude ∧ 0 < counts r then
        HandEvaluator.get_top_kickers_go counts exclude n rest
          (result ||| (r <<< (found * 4))) (found + 1)
      else HandEvaluator.get_top_kickers_go counts exclude n rest result found
    else result

def HandEvaluator.get_top_kickers (counts : Nat → Nat) (exclude : Int)
    (n : Nat) : Nat :=
  HandEvaluator.get_top_kickers_go counts exclude n rank_indices_desc 0 0

/-- The accumulator of the descending histogram scan in
`HandEvaluator::evaluate_non_flush`: `quads` and `trips` use the C++
sentinel `-1`, `pairs` collects at most two pair ranks in scan order. -/
structure ScanState where
  quads : Int
  trips : Int
  pairs : List Int

def HandEvaluator.scan_step (counts : Nat → Nat) (st : ScanState) (r : Nat) :
    ScanState :=
  if counts r == 4 then { st with quads := r }
  else if counts r == 3 then
    (if st.trips == -1 then { st with trips := r } else st)
  else if counts r == 2 then
    (if st.pairs.length < 2 then { st with pairs := st.pairs ++ [(r : Int)] } else st)
  else st

def HandEvaluator.scan_ranks (counts : Nat → Nat) : ScanState :=
  rank_indices_desc.foldl (HandEvaluator.scan_step counts) ⟨-1, -1, []⟩

/-- The inner rescue scan of the full-house branch: the first rank (from
the top) with count 3 that differs from `trips`. -/
def HandEvaluator.second_trips (counts : Nat → Nat) (trips : Int) : Option Nat :=
  rank_indices_desc.find? fun r => counts r == 3 && ((r : Int) != trips)

/-- `HandEvaluator::evaluate_non_flush` from
step2_3_perfect_evaluator.cpp lines 126-188. -/
def HandEvaluator.evaluate_non_flush (counts : Nat → Nat) (rmask : Nat) : Nat :=
  let st := HandEvaluator.scan_ranks counts
  if st.quads ≠ -1 then
    (RANK_FOUR_OF_KIND <<< 12) ||| (st.quads.toNat <<< 8) |||
      HandEvaluator.get_highest_kicker counts st.quads
  else if st.trips ≠ -1 ∧ (st.pairs.headD (-1) ≠ -1 ∨ 0 < st.pairs.length) then
    let pair : Int :=
      match HandEvaluator.second_trips counts st.trips with
      | some r => (r : Int)
      | none => st.pairs.headD (-1)
    (RANK_FULL_HOUSE <<< 12) ||| (st.trips.toNat <<< 8) ||| pair.toNat
  else if HandEvaluator.is_straight_from_mask rmask then
    (RANK_STRAIGHT <<< 12) ||| (HandEvaluator.get_straight_high rmask <<< 8)
  else if st.trips ≠ -1 then
    (RANK_THREE_OF_KIND <<< 12) ||| (st.trips.toNat <<< 8) |||
      HandEvaluator.get_top_kickers counts st.trips 2
  else if 2 ≤ st.pairs.length then
    let p0 := st.pairs.headD (-1)
    let p1 := (st.pairs.drop 1).headD (-1)
    (RANK_TWO_PAIR <<< 12) ||| (p0.toNat <<< 8) ||| (p1.toNat <<< 4) |||
      HandEvaluator.get_highest_kicker_exclude counts p0 p1
  else if st.pairs.length == 1 then
    let p0 := st.pairs.headD (-1)
    (RANK_ONE_PAIR <<< 12) ||| (p0.toNat <<< 8) |||
      HandEvaluator.get_top_kickers counts p0 3
  else unique5_lookup (rmask &&& 0x1FFF)

/-- `HandEvaluator::evaluate_7cards`: builds the four suit masks, the
rank histogram and the rank union mask, probes `flush_lookup` for the
first suit with at least five cards, otherwise falls back to
`evaluate_non_flush`. -/
def HandEvaluator.evaluate_7cards (cards : List Card) : Nat :=
  match [0, 1, 2, 3].find? (fun s => decide (5 ≤ popcount (HandEvaluator.suit_mask cards s))) with
  | some s => flush_lookup (HandEvaluator.suit_mask cards s)
  | none =>
    HandEvaluator.evaluate_non_flush (HandEvaluator.rank_count cards)
      (HandEvaluator.rank_mask cards)

end PokerEval

namespace PokerEval

/-- Claim C1: the claim states that the 32-bit scores of
`evaluate_7cards` order any two 7-card sets exactly as standard poker
hand ranking does.  The code violates this: the 7-card set
A-K-Q-J-9 of spades plus 2-hearts, 3-diamonds (a plain flush) receives
score 55996, while A-K-Q-J-T of spades plus the same two side cards (a
royal flush, which beats every plain flush) receives score 35840.  The
flush score even carries 13 in its category nibble (bits 12-15), above
the maximal legitimate category 8, because `get_top_cards` packs five
4-bit ranks into bits 0-19, colliding with the category field and
overflowing the `uint16_t` table entry. -/
theorem evaluate_7cards_flush_outranks_royal_flush :
    HandEvaluator.evaluate_7cards [12, 11, 10, 9, 7, 13, 27] = 55996 ∧
    HandEvaluator.evaluate_7cards [12, 11, 10, 9, 8, 13, 27] = 35840 ∧
    HandEvaluator.evaluate_7cards [12, 11, 10, 9, 8, 13, 27] <
      HandEvaluator.evaluate_7cards [12, 11, 10, 9, 7, 13, 27] ∧
    HandEvaluator.evaluate_7cards [12, 11, 10, 9, 7, 13, 27] >>> 12 = 13 := by
  decide

/-- Claim C6: for a 7-card set with two distinct trips (A-A-A-K-K-K-Q:
cards 12, 25, 38 are the aces, 11, 24, 37 the kings, 10 the queen of
spades; no suit reaches five cards) the claim demands a full-house score
(category 6) with trips-rank A and pair-rank K, i.e.
`(6 <<< 12) ||| (12 <<< 8) ||| 11 = 27659`.  The code instead returns
the three-of-a-kind score 15531 (category 3): with two trips and seven
cards there can be no rank of count 2, so `pair_count = 0` and the
full-house guard `trips != -1 && (pairs[0] != -1 || pair_count > 0)`
is false, making the second-trips rescue scan (which the code's own
comment dedicates to exactly this case) unreachable.  The
one-trips-plus-pair half of the claim does hold, as the included
evaluation of A-A-K-K-K-2-3 (score 27404 = full house, trips K, pair A)
shows. -/
theorem evaluate_7cards_two_trips_not_full_house :
    HandEvaluator.evaluate_7cards [12, 25, 38, 11, 24, 37, 10] = 15531 ∧
    HandEvaluator.evaluate_7cards [12, 25, 38, 11, 24, 37, 10] >>> 12 =
      RANK_THREE_OF_KIND ∧
    HandEvaluator.evaluate_7cards [12, 25, 38, 11, 24, 37, 10] ≠
      (RANK_FULL_HOUSE <<< 12) ||| (12 <<< 8) ||| 11 ∧
    HandEvaluator.evaluate_7cards [12, 25, 37, 50, 11, 39, 40] =
      (RANK_FULL_HOUSE <<< 12) ||| (11 <<< 8) ||| 12 := by
  decide

/-- Claim C7: the claim asserts that every shift amount `i - 4` executed
by `EvaluatorTables::get_highest_straight` is non-negative.  On the
wheel-only rank mask 0x100F (A-2-3-4-5, no higher straight), which
`init_flush_lookup` feeds to this function while building the table, the
loop runs all the way down to `i = 3` and evaluates the window test at
shift amount `-1` — undefined behavior in C++ (the sibling
`HandEvaluator::get_straight_high` stops at `i = 4` instead).  Under the
defined model in which that test yields false, the remaining parts of
the claim do hold: the function returns high-card index 3, the wheel
straight flush scores `(8 <<< 12) ||| (3 <<< 8) = 33536`, and it ranks
below the 6-high straight flush `(8 <<< 12) ||| (4 <<< 8) = 33792`. -/
theorem get_highest_straight_wheel_negative_shift :
    (-1 : Int) ∈ EvaluatorTables.executed_shifts 0x100F ∧
    EvaluatorTables.get_highest_straight 0x100F = 3 ∧
    EvaluatorTables.evaluate_flush_hand 0x100F =
      (RANK_STRAIGHT_FLUSH <<< 12) ||| (3 <<< 8) ∧
    EvaluatorTables.evaluate_flush_hand 0x1F =
      (RANK_STRAIGHT_FLUSH <<< 12) ||| (4 <<< 8) ∧
    EvaluatorTables.evaluate_flush_hand 0x100F <
      EvaluatorTables.evaluate_flush_hand 0x1F := by
  decide

end PokerEval

namespace EQRCalculator

/-- `PositionFactors::FACTORS` from step9_eqr_complete.cpp (doubles
modelled as exact rationals). -/
def FACTORS : List ℚ := [0.75, 0.78, 0.82, 0.86, 0.92, 0.98, 1.18, 0.70, 0.68]

def PositionFactors.get_factor (position : Nat) : ℚ :=
  FACTORS.getD (min position 8) 0

/-- `StackDepthAdjustment::calculate`, keyed by the stack-to-pot ratio. -/
def StackDepthAdjustment.calculate (spr : ℚ) : ℚ :=
  if spr < 1 then 1.25
  else if spr < 3 then 1.15
  else if spr < 7 then 1.05
  else if spr < 13 then 1.00
  else if spr < 25 then 0.95
  else 0.90

/-- `BoardTextureAdjustment::calculate`: texture 0 = dry, 1 = semi-wet,
2 = wet. -/
def BoardTextureAdjustment.calculate (texture_score : Nat) (in_position : Bool) : ℚ :=
  if texture_score == 0 then (if in_position then 1.08 else 0.95)
  else if texture_score == 1 then (if in_position then 1.02 else 0.98)
  else (if in_position then 0.95 else 0.92)

def MultiwayAdjustment.calculate (opponents : Nat) : ℚ :=
  1 / (1 + 0.18 * ((opponents : ℚ) - 1))

def SkillAdjustment.calculate (opponent_skill : ℚ) : ℚ :=
  1.05 - opponent_skill * 0.15

structure EQRResult where
  raw_equity : ℚ
  eqr : ℚ
  position_factor : ℚ
  stack_factor : ℚ
  board_factor : ℚ
  multiway_factor : ℚ
  skill_factor : ℚ

/-- `EQREngine::calculate_complete`: the five factors, their product
with the raw equity, and the final clamp into [0, 1]. -/
def EQREngine.calculate_complete (raw_equity : ℚ) (position : Nat)
    (stack pot : ℚ) (board_texture : Nat) (opponents : Nat)
    (in_position : Bool) (opponent_skill : ℚ) : EQRResult :=
  let pf := PositionFactors.get_factor position
  let spr := if 0 < pot then stack / pot else 100
  let sf := StackDepthAdjustment.calculate spr
  let bf := BoardTextureAdjustment.calculate board_texture in_position
  let mf := MultiwayAdjustment.calculate opponents
  let kf := SkillAdjustment.calculate opponent_skill
  let product := raw_equity * pf * sf * bf * mf * kf
  { raw_equity := raw_equity
    eqr := min 1 (max 0 product)
    position_factor := pf
    stack_factor := sf
    board_factor := bf
    multiway_factor := mf
    skill_factor := kf }

/-- `EQREngine::adjust_for_street`. -/
def EQREngine.adjust_for_street (eqr : ℚ) (street : Nat) : ℚ :=
  eqr * ([0.95, 1.00, 1.03, 1.05] : List ℚ).getD (min street 3) 0

/-- Claim C9 (counterexample): on raw equity 0.60, position 6 (BTN),
stack 100, pot 10, dry board, one opponent, in position, skill 0.5 the
claim predicts `0.60 * 1.18 * 0.90 * 1.08 * 1.0 * 0.975 ≈ 0.671`, with
stack factor 0.90.  The code computes SPR = 100 / 10 = 10, which falls
in the `spr < 13` bracket and yields stack factor 1.00, so the returned
EQR differs from the claimed product. -/
theorem calculate_complete_btn_not_claimed_product :
    (EQREngine.calculate_complete 0.60 6 100 10 0 1 true 0.5).eqr ≠
      0.60 * 1.18 * 0.90 * 1.08 * 1.0 * 0.975 := by
  norm_num [EQREngine.calculate_complete, PositionFactors.get_factor, FACTORS,
    StackDepthAdjustment.calculate, BoardTextureAdjustment.calculate,
    MultiwayAdjustment.calculate, SkillAdjustment.calculate]

/-- Claim C9 (amended): for the same input the stack factor is 1.00
(SPR = 10 lies in the `< 13` bracket) and the EQR is
`0.60 * 1.18 * 1.00 * 1.08 * 1.0 * 0.975 = 0.745524`. -/
theorem calculate_complete_btn_value :
    (EQREngine.calculate_complete 0.60 6 100 10 0 1 true 0.5).stack_factor = 1.00 ∧
    (EQREngine.calculate_complete 0.60 6 100 10 0 1 true 0.5).eqr =
      0.60 * 1.18 * 1.00 * 1.08 * 1.0 * 0.975 ∧
    (EQREngine.calculate_complete 0.60 6 100 10 0 1 true 0.5).eqr = 186381 / 250000 := by
  norm_num [EQREngine.calculate_complete, PositionFactors.get_factor, FACTORS,
    StackDepthAdjustment.calculate, BoardTextureAdjustment.calculate,
    MultiwayAdjustment.calculate, SkillAdjustment.calculate]

end EQRCalculator

namespace MonteCarloEngine

open PokerCore

/-- `FastRNG::next` from step4_5_optimized_monte_carlo.cpp: the xorshift64
step on a 64-bit state (the new state is also the returned value). -/
def FastRNG.next (state : Nat) : Nat :=
  let s1 := (state ^^^ (state <<< 13)) % 2 ^ 64
  let s2 := s1 ^^^ (s1 >>> 7)
  (s2 ^^^ (s2 <<< 17)) % 2 ^ 64

/-- `FastRNG::next_int`: truncate to 32 bits, then take the remainder;
returns the advanced state together with the drawn index. -/
def FastRNG.next_int (state bound : Nat) : Nat × Nat :=
  let s := FastRNG.next state
  (s, s % 2 ^ 32 % bound)

/-- Swap the entries at positions `i` and `j` of a card list. -/
def swap_cards (l : List Card) (i j : Nat) : List Card :=
  ((l.set i (l.getD j 0)).set j (l.getD i 0))

/-- The Fisher-Yates loop body: at index `i + 1` draw `j < i + 2`, swap,
and continue downward; the C++ loop stops once `i = 0`. -/
def shuffle_go (l : List Card) (state : Nat) : Nat → List Card × Nat
  | 0 => (l, state)
  | i + 1 =>
    let r := FastRNG.next_int state (i + 2)
    shuffle_go (swap_cards l (i + 1) r.2) r.1 i

/-- The in-place Fisher-Yates shuffle of one simulation iteration. -/
def fisher_yates (l : List Card) (state : Nat) : List Card × Nat :=
  shuffle_go l state (l.length - 1)

/-- The per-opponent comparison loop of `run_simulation`: `won` starts
true and turns false at the first opponent score exceeding the hero's
(breaking out of the loop); `tied` latches any equal score seen. -/
def oppLoop (hero : Nat) (tied : Bool) : List Nat → Bool × Bool
  | [] => (true, tied)
  | o :: rest =>
    if hero < o then (false, tied) else oppLoop hero (tied || (o == hero)) rest

/-- The end-of-iteration counter update `(wins, ties, losses)`:
`if (won) { if (tied) ties++; else wins++; } else losses++;`. -/
def classify_update (c : Nat × Nat × Nat) (hero : Nat) (scores : List Nat) :
    Nat × Nat × Nat :=
  let r := oppLoop hero false scores
  if r.1 then
    (if r.2 then (c.1, c.2.1 + 1, c.2.2) else (c.1 + 1, c.2.1, c.2.2))
  else (c.1, c.2.1, c.2.2 + 1)

/-- The opponent hands' scores: opponent `k` takes the two cards at deck
positions `base + 2k` and `base + 2k + 1` plus the completed board. -/
def opp_scores (deck full_board : List Card) (base opponents : Nat) : List Nat :=
  (List.range opponents).map fun k =>
    PokerEval.HandEvaluator.evaluate_7cards
      (deck.getD (base + 2 * k) 0 :: deck.getD (base + 2 * k + 1) 0 :: full_board)

/-- One iteration of `run_simulation`'s main loop: shuffle the live deck,
complete the board from its head, score hero and opponents, update the
counters. -/
def sim_iter (h1 h2 : Card) (board : List Card) (opponents : Nat)
    (st : (Nat × Nat × Nat) × List Card × Nat) :
    (Nat × Nat × Nat) × List Card × Nat :=
  let sh := fisher_yates st.2.1 st.2.2
  let full_board := board ++ sh.1.take (5 - board.length)
  let hero_score := PokerEval.HandEvaluator.evaluate_7cards (h1 :: h2 :: full_board)
  let scores := opp_scores sh.1 full_board (5 - board.length) opponents
  (classify_update st.1 hero_score scores, sh.1, sh.2)

def sim_loop (h1 h2 : Card) (board : List Card) (opponents : Nat) :
    Nat → (Nat × Nat × Nat) × List Card × Nat → (Nat × Nat × Nat) × List Card × Nat
  | 0, st => st
  | k + 1, st => sim_loop h1 h2 board opponents k (sim_iter h1 h2 board opponents st)

/-- `EquityCalculator::Result` without the `float equity` field, which a
rational model cannot represent faithfully; the claims under scrutiny
concern the four integer counters. -/
structure Result where
  wins : Nat
  ties : Nat
  losses : Nat
  iterations : Nat

/-- The dead-card mask of hero cards plus board. -/
def dead_mask (h1 h2 : Card) (board : List Card) : Nat :=
  board.foldl (fun m c => m ||| card_to_mask c) (card_to_mask h1 ||| card_to_mask h2)

/-- `EquityCalculator::run_simulation`: compact the 52-card deck to the
live cards, then run `iterations` shuffle-deal-score rounds.
`result.iterations` is set to the argument in the initializer and never
touched by the loop. -/
def run_simulation (h1 h2 : Card) (board : List Card)
    (opponents iterations seed : Nat) : Result :=
  let deck := (List.range DECK_SIZE).filter fun c => !(has_card (dead_mask h1 h2 board) c)
  let fin := sim_loop h1 h2 board opponents iterations ((0, 0, 0), deck, seed)
  { wins := fin.1.1, ties := fin.1.2.1, losses := fin.1.2.2, iterations := iterations }

/-- The aggregation step of `calculate_equity` (summing worker results). -/
def agg (acc r : Result) : Result :=
  { wins := acc.wins + r.wins, ties := acc.ties + r.ties,
    losses := acc.losses + r.losses, iterations := acc.iterations + r.iterations }

/-- `EquityCalculator::calculate_equity`.  `num_threads` stands for
`std::thread::hardware_concurrency()` (an environment value), and `seed`
for the effective base seed (a zero seed is replaced by a hardware
random value before this point, which is not modelled).  Worker `t` runs
`iterations / num_threads` rounds with seed `seed + t`; the results are
summed after all workers join. -/
def calculate_equity (num_threads : Nat) (h1 h2 : Card) (board : List Card)
    (opponents iterations seed : Nat) : Result :=
  let iters_per_thread := iterations / num_threads
  let results := (List.range num_threads).map fun t =>
    run_simulation h1 h2 board opponents iters_per_thread (seed + t)
  results.foldl agg ⟨0, 0, 0, 0⟩

theorem oppLoop_fst (hero : Nat) (scores : List Nat) : ∀ t : Bool,
    (oppLoop hero t scores).1 = !(scores.any fun o => decide (hero < o)) := by
  induction scores with
  | nil => intro t; rfl
  | cons o rest ih =>
    intro t
    by_cases h : hero < o
    · simp [oppLoop, h]
    · simp [oppLoop, h, ih]

theorem oppLoop_snd (hero : Nat) (scores : List Nat)
    (hall : scores.all (fun o => decide (o ≤ hero)) = true) : ∀ t : Bool,
    (oppLoop hero t scores).2 = (t || scores.any fun o => o == hero) := by
  induction scores with
  | nil => intro t; simp [oppLoop]
  | cons o rest ih =>
    intro t
    simp only [List.all_cons, Bool.and_eq_true, decide_eq_true_eq] at hall
    have hno : ¬ hero < o := by omega
    simp only [oppLoop, if_neg hno, ih hall.2, List.any_cons]
    cases t <;> cases hb : (o == hero) <;> simp

/-- The classification equation: exactly one counter is bumped, losses
iff some opponent strictly beats the hero, ties iff nobody beats the
hero and someone matches, wins otherwise. -/
theorem classify_update_eq (c : Nat × Nat × Nat) (hero : Nat) (scores : List Nat) :
    classify_update c hero scores =
      if scores.any (fun o => decide (hero < o)) then (c.1, c.2.1, c.2.2 + 1)
      else if scores.any (fun o => o == hero) then (c.1, c.2.1 + 1, c.2.2)
      else (c.1 + 1, c.2.1, c.2.2) := by
  by_cases hl : scores.any (fun o => decide (hero < o))
  · simp only [classify_update, oppLoop_fst, hl, Bool.not_true, if_neg, if_pos]
    simp [hl]
  · have hall : scores.all (fun o => decide (o ≤ hero)) = true := by
      simp only [List.any_eq_true, decide_eq_true_eq, not_exists, not_and] at hl
      simp only [List.all_eq_true, decide_eq_true_eq]
      push_neg at hl
      intro o ho
      exact Nat.le_of_not_lt fun hc => absurd hc (by simpa using hl o ho)
    simp only [classify_update, oppLoop_fst, oppLoop_snd hero scores hall,
      Bool.false_or]
    simp only [hl, Bool.not_false, if_true, if_neg]
    by_cases ht : scores.any (fun o => o == hero) <;> simp [ht, hl]

theorem classify_update_sum (c : Nat × Nat × Nat) (hero : Nat) (scores : List Nat) :
    (classify_update c hero scores).1 + (classify_update c hero scores).2.1 +
      (classify_update c hero scores).2.2 = c.1 + c.2.1 + c.2.2 + 1 := by
  rw [classify_update_eq]
  split
  · simp; omega
  · split <;> simp <;> omega

theorem sim_loop_sum (h1 h2 : Card) (board : List Card) (opponents : Nat) :
    ∀ (k : Nat) (st : (Nat × Nat × Nat) × List Card × Nat),
    (sim_loop h1 h2 board opponents k st).1.1 +
      (sim_loop h1 h2 board opponents k st).1.2.1 +
      (sim_loop h1 h2 board opponents k st).1.2.2 =
      st.1.1 + st.1.2.1 + st.1.2.2 + k := by
  intro k
  induction k with
  | zero => intro st; rfl
  | succ n ih =>
    intro st
    have hstep := classify_update_sum st.1
      (PokerEval.HandEvaluator.evaluate_7cards
        (h1 :: h2 :: (board ++ (fisher_yates st.2.1 st.2.2).1.take (5 - board.length))))
      (opp_scores (fisher_yates st.2.1 st.2.2).1
        (board ++ (fisher_yates st.2.1 st.2.2).1.take (5 - board.length))
        (5 - board.length) opponents)
    calc (sim_loop h1 h2 board opponents (n + 1) st).1.1 +
          (sim_loop h1 h2 board opponents (n + 1) st).1.2.1 +
          (sim_loop h1 h2 board opponents (n + 1) st).1.2.2
        = (sim_iter h1 h2 board opponents st).1.1 +
          (sim_iter h1 h2 board opponents st).1.2.1 +
          (sim_iter h1 h2 board opponents st).1.2.2 + n := ih _
      _ = st.1.1 + st.1.2.1 + st.1.2.2 + (n + 1) := by
          simp only [sim_iter]
          omega

theorem run_simulation_sum (h1 h2 : Card) (board : List Card)
    (opponents iterations seed : Nat) :
    (run_simulation h1 h2 board opponents iterations seed).wins +
      (run_simulation h1 h2 board opponents iterations seed).ties +
      (run_simulation h1 h2 board opponents iterations seed).losses = iterations := by
  simp only [run_simulation]
  rw [sim_loop_sum]
  simp

theorem run_simulation_iterations (h1 h2 : Card) (board : List Card)
    (opponents iterations seed : Nat) :
    (run_simulation h1 h2 board opponents iterations seed).iterations = iterations := rfl

theorem agg_wins (a b : Result) : (agg a b).wins = a.wins + b.wins := rfl

theorem agg_ties (a b : Result) : (agg a b).ties = a.ties + b.ties := rfl

theorem agg_losses (a b : Result) : (agg a b).losses = a.losses + b.losses := rfl

theorem agg_iterations (a b : Result) : (agg a b).iterations = a.iterations + b.iterations := rfl

theorem foldl_agg_fields (rs : List Result) : ∀ acc : Result,
    ((rs.foldl agg acc).wins = acc.wins + (rs.map Result.wins).sum ∧
     (rs.foldl agg acc).ties = acc.ties + (rs.map Result.ties).sum) ∧
    ((rs.foldl agg acc).losses = acc.losses + (rs.map Result.losses).sum ∧
     (rs.foldl agg acc).iterations = acc.iterations + (rs.map Result.iterations).sum) := by
  induction rs with
  | nil => intro acc; simp
  | cons r rest ih =>
    intro acc
    simp only [List.foldl_cons, List.map_cons, List.sum_cons]
    obtain ⟨⟨hw, ht⟩, hl, hi⟩ := ih (agg acc r)
    refine ⟨⟨?_, ?_⟩, ?_, ?_⟩
    · rw [hw, agg_wins]; omega
    · rw [ht, agg_ties]; omega
    · rw [hl, agg_losses]; omega
    · rw [hi, agg_iterations]; omega

theorem sum_map_const_range (H c : Nat) :
    (((List.range H).map fun _ => c).sum) = H * c := by
  induction H with
  | zero => simp
  | succ n ih => rw [List.range_succ]; simp [ih, Nat.succ_mul]

theorem calculate_equity_iterations (num_threads : Nat) (h1 h2 : Card)
    (board : List Card) (opponents iterations seed : Nat) :
    (calculate_equity num_threads h1 h2 board opponents iterations seed).iterations =
      num_threads * (iterations / num_threads) := by
  simp only [calculate_equity]
  rw [((foldl_agg_fields _ _).2.2)]
  rw [List.map_map]
  have hmap : ((List.range num_threads).map
      (Result.iterations ∘ fun t =>
        run_simulation h1 h2 board opponents (iterations / num_threads) (seed + t))) =
      (List.range num_threads).map fun _ => iterations / num_threads := by
    apply List.map_congr_left
    intro t _
    exact run_simulation_iterations h1 h2 board opponents (iterations / num_threads) (seed + t)
  rw [hmap, sum_map_const_range]
  simp

theorem calculate_equity_balanced (num_threads : Nat) (h1 h2 : Card)
    (board : List Card) (opponents iterations seed : Nat) :
    (calculate_equity num_threads h1 h2 board opponents iterations seed).wins +
      (calculate_equity num_threads h1 h2 board opponents iterations seed).ties +
      (calculate_equity num_threads h1 h2 board opponents iterations seed).losses =
      (calculate_equity num_threads h1 h2 board opponents iterations seed).iterations := by
  have key : ∀ idx : List Nat,
      ((idx.map fun t =>
          run_simulation h1 h2 board opponents (iterations / num_threads) (seed + t)).map
        Result.wins).sum +
      ((idx.map fun t =>
          run_simulation h1 h2 board opponents (iterations / num_threads) (seed + t)).map
        Result.ties).sum +
      ((idx.map fun t =>
          run_simulation h1 h2 board opponents (iterations / num_threads) (seed + t)).map
        Result.losses).sum =
      ((idx.map fun t =>
          run_simulation h1 h2 board opponents (iterations / num_threads) (seed + t)).map
        Result.iterations).sum := by
    intro idx
    induction idx with
    | nil => simp
    | cons t rest ih =>
      simp only [List.map_cons, List.sum_cons]
      have hone := run_simulation_sum h1 h2 board opponents
        (iterations / num_threads) (seed + t)
      have htwo := run_simulation_iterations h1 h2 board opponents
        (iterations / num_threads) (seed + t)
      omega
  simp only [calculate_equity]
  obtain ⟨⟨hw, ht⟩, hl, hi⟩ := foldl_agg_fields
    ((List.range num_threads).map fun t =>
      run_simulation h1 h2 board opponents (iterations / num_threads) (seed + t))
    (⟨0, 0, 0, 0⟩ : Result)
  rw [hw, ht, hl, hi]
  have hz1 : ({ wins := 0, ties := 0, losses := 0, iterations := 0 } : Result).wins = 0 := rfl
  have hz2 : ({ wins := 0, ties := 0, losses := 0, iterations := 0 } : Result).ties = 0 := rfl
  have hz3 : ({ wins := 0, ties := 0, losses := 0, iterations := 0 } : Result).losses = 0 := rfl
  have hz4 : ({ wins := 0, ties := 0, losses := 0, iterations := 0 } : Result).iterations = 0 := rfl
  have := key (List.range num_threads)
  omega

/-- Claim C2: in every simulation iteration exactly one of the wins,
ties, losses counters is incremented — a loss iff some opponent score
strictly exceeds the hero's, a tie iff no opponent exceeds it and at
least one equals it, a win otherwise (fourth conjunct, stated on the
counter-update function the loop body uses) — and consequently
`wins + ties + losses = iterations` both per worker (`run_simulation`)
and in the summed result of `calculate_equity`. -/
theorem equity_counts_balanced (h1 h2 : PokerCore.Card) (board : List PokerCore.Card)
    (opponents iterations seed num_threads : Nat) :
    ((run_simulation h1 h2 board opponents iterations seed).wins +
       (run_simulation h1 h2 board opponents iterations seed).ties +
       (run_simulation h1 h2 board opponents iterations seed).losses = iterations) ∧
    ((run_simulation h1 h2 board opponents iterations seed).iterations = iterations) ∧
    ((calculate_equity num_threads h1 h2 board opponents iterations seed).wins +
       (calculate_equity num_threads h1 h2 board opponents iterations seed).ties +
       (calculate_equity num_threads h1 h2 board opponents iterations seed).losses =
       (calculate_equity num_threads h1 h2 board opponents iterations seed).iterations) ∧
    (∀ (c : Nat × Nat × Nat) (hero : Nat) (scores : List Nat),
       classify_update c hero scores =
         if scores.any (fun o => decide (hero < o)) then (c.1, c.2.1, c.2.2 + 1)
         else if scores.any (fun o => o == hero) then (c.1, c.2.1 + 1, c.2.2)
         else (c.1 + 1, c.2.1, c.2.2)) :=
  ⟨run_simulation_sum h1 h2 board opponents iterations seed,
   run_simulation_iterations h1 h2 board opponents iterations seed,
   calculate_equity_balanced num_threads h1 h2 board opponents iterations seed,
   fun c hero scores => classify_update_eq c hero scores⟩

/-- Claim C3 (counterexample): with 4 hardware threads and a requested
iteration count of 10, `calculate_equity` runs `4 * (10 / 4) = 8`
iterations in total, so the returned iterations field is not the
requested 10 (hero holds the aces of spades and hearts, one opponent,
empty board, base seed 1). -/
theorem calculate_equity_drops_remainder :
    (calculate_equity 4 12 25 [] 1 10 1).iterations ≠ 10 := by
  rw [calculate_equity_iterations]
  decide

/-- Claim C3 (amended): for `H ≥ 1` workers, `calculate_equity` gives
each worker `T / H` (integer division) iterations with seed
`base_seed + worker_index`, and the returned iterations field equals
`H * (T / H)` — which equals the requested `T` exactly when `H` divides
`T`; otherwise the `T mod H` remainder iterations are silently dropped. -/
theorem calculate_equity_iterations_partition (num_threads : Nat)
    (h1 h2 : PokerCore.Card) (board : List PokerCore.Card)
    (opponents iterations seed : Nat) (hpos : 1 ≤ num_threads) :
    (calculate_equity num_threads h1 h2 board opponents iterations seed).iterations =
      num_threads * (iterations / num_threads) ∧
    (iterations % num_threads = 0 →
      (calculate_equity num_threads h1 h2 board opponents iterations seed).iterations =
        iterations) := by
  refine ⟨calculate_equity_iterations num_threads h1 h2 board opponents iterations seed, ?_⟩
  intro hdvd
  rw [calculate_equity_iterations]
  exact Nat.mul_div_cancel' (Nat.dvd_of_mod_eq_zero hdvd)

/-- Witness for `calculate_equity_iterations_partition` at 2 threads,
10 iterations. -/
theorem calculate_equity_iterations_partition_witness :
    1 ≤ 2 ∧
    ((calculate_equity 2 12 25 [] 1 10 1).iterations = 2 * (10 / 2) ∧
     (10 % 2 = 0 → (calculate_equity 2 12 25 [] 1 10 1).iterations = 10)) :=
  ⟨by decide, calculate_equity_iterations_partition 2 12 25 [] 1 10 1 (by decide)⟩

end MonteCarloEngine

namespace CFREngine

abbrev Action := Int

/-- Lookup with the `std::map::operator[]` default of 0.0. -/
def mget (m : List (Action × ℚ)) (a : Action) : ℚ :=
  ((m.find? fun p => p.1 == a).map Prod.snd).getD 0

def mcontains (m : List (Action × ℚ)) (a : Action) : Bool :=
  (m.find? fun p => p.1 == a).isSome

/-- Store a value under a key: overwrite the existing entry or append a
new one (`std::map::operator[] = v`). -/
def mset (m : List (Action × ℚ)) (a : Action) (v : ℚ) : List (Action × ℚ) :=
  match m with
  | [] => [(a, v)]
  | p :: rest => if p.1 == a then (a, v) :: rest else p :: mset rest a v

/-- The default-insertion a bare `operator[]` read performs on a missing
key. -/
def mensure (m : List (Action × ℚ)) (a : Action) : List (Action × ℚ) :=
  if mcontains m a then m else m ++ [(a, 0)]

/-- `InfoSet` from step6_7_cfr_engine_complete.cpp: cumulative regrets,
cumulative strategy weights and a visit counter, with the `std::map`
fields as association lists. -/
structure InfoSet where
  regret_sum : List (Action × ℚ)
  strategy_sum : List (Action × ℚ)
  visit_count : Nat

def initInfoSet : InfoSet := ⟨[], [], 0⟩

/-- `InfoSet::get_strategy` (regret matching).  Reading `regret_sum[a]`
through `operator[]` default-inserts missing keys, so the method returns
the possibly-extended info set alongside the strategy map. -/
def InfoSet.get_strategy (is : InfoSet) (legal_actions : List Action) :
    List (Action × ℚ) × InfoSet :=
  let rs := legal_actions.foldl mensure is.regret_sum
  let raw := legal_actions.map fun a => (a, max 0 (mget rs a))
  let normalizing_sum := (raw.map Prod.snd).sum
  let strategy :=
    if 0 < normalizing_sum then raw.map fun p => (p.1, p.2 / normalizing_sum)
    else legal_actions.map fun a => (a, 1 / (legal_actions.length : ℚ))
  (strategy, { is with regret_sum := rs })

/-- `InfoSet::get_average_strategy`; reading `strategy_sum[a]` likewise
default-inserts missing keys. -/
def InfoSet.get_average_strategy (is : InfoSet) (legal_actions : List Action) :
    List (Action × ℚ) × InfoSet :=
  let ss := legal_actions.foldl mensure is.strategy_sum
  let normalizing_sum := (legal_actions.map fun a => mget ss a).sum
  let avg :=
    if 0 < normalizing_sum then legal_actions.map fun a => (a, mget ss a / normalizing_sum)
    else legal_actions.map fun a => (a, 1 / (legal_actions.length : ℚ))
  (avg, { is with strategy_sum := ss })

/-- `InfoSet::accumulate_strategy` (Linear CFR weighting). -/
def InfoSet.accumulate_strategy (is : InfoSet) (strategy : List (Action × ℚ))
    (iteration : Nat) : InfoSet :=
  let weight : ℚ := (iteration : ℚ) / ((iteration : ℚ) + 1)
  { is with strategy_sum :=
      strategy.foldl (fun m p => mset m p.1 (mget m p.1 + p.2 * weight)) is.strategy_sum }

/-- `InfoSet::update_regrets` (CFR+): add the weighted regret, then clip
the stored value to zero from below. -/
def InfoSet.update_regrets (is : InfoSet) (regrets : List (Action × ℚ))
    (weight : ℚ) : InfoSet :=
  let rs :=
    regrets.foldl (fun m p => mset m p.1 (max 0 (mget m p.1 + weight * p.2)))
      is.regret_sum
  { is with regret_sum := rs }

/-- The per-info-set effect of `CFRSolver::discount_regrets`: every
regret is multiplied by `pow(alpha, -1)` and every strategy weight by
`pow(beta, -1)`. -/
def InfoSet.discount (is : InfoSet) (alpha beta : ℚ) : InfoSet :=
  { is with
    regret_sum := is.regret_sum.map (fun p => (p.1, p.2 * alpha⁻¹)),
    strategy_sum := is.strategy_sum.map (fun p => (p.1, p.2 * beta⁻¹)) }

/-- The operations of claim C5 that an information set may undergo
during the solver's lifetime, with the solver's literal discount
constants `discount_alpha = 1.5`, `discount_beta = 0.5`. -/
inductive ISOp where
  | update (regrets : List (Action × ℚ)) (weight : ℚ)
  | discount
  | accumulate (strategy : List (Action × ℚ)) (iteration : Nat)
  | query (legal_actions : List Action)

def applyOp (is : InfoSet) : ISOp → InfoSet
  | .update regrets weight => is.update_regrets regrets weight
  | .discount => is.discount 1.5 0.5
  | .accumulate strategy iteration => is.accumulate_strategy strategy iteration
  | .query legal_actions => (is.get_strategy legal_actions).2

/-- All stored cumulative regret values are non-negative. -/
def regretsNonneg (is : InfoSet) : Prop := ∀ p ∈ is.regret_sum, 0 ≤ p.2

theorem mem_mset (m : List (Action × ℚ)) (a : Action) (v : ℚ) :
    ∀ q ∈ mset m a v, q = (a, v) ∨ q ∈ m := by
  induction m with
  | nil => intro q hq; simp [mset] at hq; simp [hq]
  | cons p rest ih =>
    intro q hq
    by_cases hpa : p.1 == a
    · simp only [mset, if_pos hpa, List.mem_cons] at hq
      rcases hq with h | h
      · exact Or.inl h
      · exact Or.inr (List.mem_cons_of_mem _ h)
    · simp only [mset, if_neg hpa, List.mem_cons] at hq
      rcases hq with h | h
      · exact Or.inr (h ▸ List.mem_cons_self _ _)
      · rcases ih q h with h2 | h2
        · exact Or.inl h2
        · exact Or.inr (List.mem_cons_of_mem _ h2)

theorem mem_mensure (m : List (Action × ℚ)) (a : Action) :
    ∀ q ∈ mensure m a, q = (a, 0) ∨ q ∈ m := by
  intro q hq
  by_cases hc : mcontains m a
  · simp only [mensure, if_pos hc] at hq; exact Or.inr hq
  · simp only [mensure, if_neg hc, List.mem_append, List.mem_singleton] at hq
    rcases hq with h | h
    · exact Or.inr h
    · exact Or.inl h

theorem nonneg_foldl_mensure (legal : List Action) :
    ∀ m : List (Action × ℚ), (∀ q ∈ m, 0 ≤ q.2) →
      ∀ q ∈ legal.foldl mensure m, 0 ≤ q.2 := by
  induction legal with
  | nil => intro m hm q hq; exact hm q hq
  | cons a rest ih =>
    intro m hm q hq
    refine ih (mensure m a) ?_ q hq
    intro r hr
    rcases mem_mensure m a r hr with h | h
    · simp [h]
    · exact hm r h

theorem nonneg_update_fold (regrets : List (Action × ℚ)) (weight : ℚ) :
    ∀ m : List (Action × ℚ), (∀ q ∈ m, 0 ≤ q.2) →
      ∀ q ∈ regrets.foldl (fun m p => mset m p.1 (max 0 (mget m p.1 + weight * p.2))) m,
        0 ≤ q.2 := by
  induction regrets with
  | nil => intro m hm q hq; exact hm q hq
  | cons p rest ih =>
    intro m hm q hq
    refine ih _ ?_ q hq
    intro r hr
    rcases mem_mset m p.1 (max 0 (mget m p.1 + weight * p.2)) r hr with h | h
    · rw [h]; exact le_max_left 0 _
    · exact hm r h

/-- Each of the four operations preserves non-negativity of the stored
regrets. -/
theorem applyOp_preserves (is : InfoSet) (op : ISOp) (h : regretsNonneg is) :
    regretsNonneg (applyOp is op) := by
  cases op with
  | update regrets weight =>
    intro q hq
    simp only [applyOp, InfoSet.update_regrets] at hq
    exact nonneg_update_fold regrets weight is.regret_sum h q hq
  | discount =>
    intro q hq
    simp only [applyOp, InfoSet.discount, List.mem_map] at hq
    obtain ⟨p, hp, hpq⟩ := hq
    have h15 : (0 : ℚ) ≤ (1.5 : ℚ)⁻¹ := by norm_num
    have := h p hp
    rw [← hpq]
    exact mul_nonneg this h15
  | accumulate strategy iteration => exact fun q hq => h q hq
  | query legal_actions =>
    intro q hq
    exact nonneg_foldl_mensure legal_actions is.regret_sum h q hq

/-- Claim C5: starting from any information set whose stored regrets are
all non-negative (in particular a freshly materialized one), every
finite sequence of `update_regrets`, `discount_regrets` (restricted to
this info set), `accumulate_strategy` and `get_strategy` operations
leaves every stored cumulative regret non-negative: the CFR+ clip is
preserved, including across the periodic discount by `1.5⁻¹`. -/
theorem regret_sum_nonneg_invariant (is : InfoSet) (h : regretsNonneg is)
    (ops : List ISOp) : regretsNonneg (ops.foldl applyOp is) := by
  induction ops generalizing is with
  | nil => exact h
  | cons op rest ih => exact ih (applyOp is op) (applyOp_preserves is op h)

/-- Witness for `regret_sum_nonneg_invariant`: the fresh info set, hit
with a regret update of -5 at weight 1 followed by a discount, still
stores only non-negative regrets. -/
theorem regret_sum_nonneg_invariant_witness :
    regretsNonneg initInfoSet ∧
    regretsNonneg ([ISOp.update [((0 : Action), (-5 : ℚ))] 1, ISOp.discount].foldl
      applyOp initInfoSet) :=
  ⟨fun p hp => by simp [initInfoSet] at hp,
   regret_sum_nonneg_invariant initInfoSet (fun p hp => by simp [initInfoSet] at hp) _⟩

end CFREngine

namespace CFREngine

/-- Lookup in the solver's info-set store (`std::map<std::string, InfoSet>`). -/
def slookup (m : List (String × InfoSet)) (key : String) : Option InfoSet :=
  (m.find? fun p => p.1 == key).map Prod.snd

/-- Store an info set under a key, overwriting or appending. -/
def sset (m : List (String × InfoSet)) (key : String) (v : InfoSet) :
    List (String × InfoSet) :=
  match m with
  | [] => [(key, v)]
  | p :: rest => if p.1 == key then (key, v) :: rest else p :: sset rest key v

/-- `CFRSolver`'s mutable state: the info-set store and the iteration
counter (the discount constants 1.5 and 0.5 are compile-time fixed). -/
structure CFRSolver where
  info_sets : List (String × InfoSet)
  iteration : Nat

def initSolver : CFRSolver := ⟨[], 0⟩

/-- Game-logic stub `CFRSolver::is_terminal` — always false in the source. -/
def is_terminal_stub : Bool := false

/-- Game-logic stub `CFRSolver::is_chance_node` — always false. -/
def is_chance_node_stub : Bool := false

/-- Game-logic stub `CFRSolver::get_current_player` — always player 0. -/
def get_current_player_stub : Nat := 0

/-- Game-logic stub `CFRSolver::get_info_set_key`. -/
def get_info_set_key_stub : String := "example_state"

/-- Game-logic stub `CFRSolver::get_legal_actions` — three actions. -/
def get_legal_actions_stub : List Action := [0, 1, 2]

/-- Game-logic stub `CFRSolver::get_payoff` — always 0. -/
def get_payoff_stub (player : Nat) : ℚ := 0

/-- Game-logic stub `CFRSolver::get_chance_outcomes` — empty. -/
def get_chance_outcomes_stub : List (Int × ℚ) := []

/-- Insert a default-constructed info set when `info_sets[key]` is read
for a missing key (`std::map::operator[]`). -/
def solverEnsure (solver : CFRSolver) (key : String) : CFRSolver :=
  if (slookup solver.info_sets key).isSome then solver
  else { solver with info_sets := sset solver.info_sets key initInfoSet }

/-- The action loop shared by `handle_player_node` and
`handle_opponent_node`: fold over the legal actions, calling the
recursive evaluation (already closed over the reach probabilities) on
each action's strategy probability, threading the solver state and
collecting `(action, utility)` pairs.  `none` (out of fuel) aborts. -/
def runActions (rec : ℚ → CFRSolver → Option (ℚ × CFRSolver))
    (strategy : List (Action × ℚ)) (solver : CFRSolver) :
    List Action → Option (List (Action × ℚ) × CFRSolver)
  | [] => some ([], solver)
  | a :: rest =>
    match rec (mget strategy a) solver with
    | none => none
    | some (u, solver2) =>
      match runActions rec strategy solver2 rest with
      | none => none
      | some (us, solver3) => some ((a, u) :: us, solver3)

/-- The chance-node loop of `handle_chance_node`: apply each outcome
(the apply/revert hooks are no-op stubs), recurse, and accumulate the
probability-weighted utility. -/
def chanceFold (rec : CFRSolver → Option (ℚ × CFRSolver)) (solver : CFRSolver) :
    List (Int × ℚ) → Option (ℚ × CFRSolver)
  | [] => some (0, solver)
  | (_, prob) :: rest =>
    match rec solver with
    | none => none
    | some (u, solver2) =>
      match chanceFold rec solver2 rest with
      | none => none
      | some (acc, solver3) => some (acc + prob * u, solver3)

/-- `CFRSolver::cfr_recursive` with the game-logic stubs of the source,
as a fuel-indexed function: `fuel` bounds the recursion depth and
`none` means the bound was exceeded.  The C++ reference
`InfoSet& info_set` stays valid across the recursive calls (which may
mutate the same map entry), so the post-recursion updates re-read the
entry from the threaded state. -/
def cfr_recursive : Nat → CFRSolver → Nat → Nat → ℚ → ℚ → Option (ℚ × CFRSolver)
  | 0, _, _, _, _, _ => none
  | fuel + 1, solver, depth, player, pi_reach_player, pi_reach_opponent =>
    if is_terminal_stub then some (get_payoff_stub player, solver)
    else if is_chance_node_stub then
      chanceFold
        (fun s => cfr_recursive fuel s (depth + 1) player pi_reach_player pi_reach_opponent)
        solver get_chance_outcomes_stub
    else if get_current_player_stub == player then
      let key := get_info_set_key_stub
      let solver1 := solverEnsure solver key
      let iset := (slookup solver1.info_sets key).getD initInfoSet
      let legal := get_legal_actions_stub
      let gs := iset.get_strategy legal
      let solver2 := { solver1 with info_sets := sset solver1.info_sets key gs.2 }
      match runActions
          (fun prob s =>
            cfr_recursive fuel s (depth + 1) player (pi_reach_player * prob) pi_reach_opponent)
          gs.1 solver2 legal with
      | none => none
      | some (utils, solver3) =>
        let node_utility := (legal.map fun a => mget gs.1 a * mget utils a).sum
        let regrets := legal.map fun a => (a, mget utils a - node_utility)
        let iset2 := (slookup solver3.info_sets key).getD initInfoSet
        let iset3 := iset2.update_regrets regrets pi_reach_opponent
        let iset4 := iset3.accumulate_strategy gs.1 solver3.iteration
        let iset5 := { iset4 with visit_count := iset4.visit_count + 1 }
        some (node_utility, { solver3 with info_sets := sset solver3.info_sets key iset5 })
    else
      let key := get_info_set_key_stub
      let solver1 := solverEnsure solver key
      let iset := (slookup solver1.info_sets key).getD initInfoSet
      let legal := get_legal_actions_stub
      let gs := iset.get_strategy legal
      let solver2 := { solver1 with info_sets := sset solver1.info_sets key gs.2 }
      match runActions
          (fun prob s =>
            cfr_recursive fuel s (depth + 1) player pi_reach_player (pi_reach_opponent * prob))
          gs.1 solver2 legal with
      | none => none
      | some (utils, solver3) =>
        some ((legal.map fun a => mget gs.1 a * mget utils a).sum, solver3)

/-- `CFRSolver::discount_regrets` over the whole store. -/
def discount_regrets (solver : CFRSolver) : CFRSolver :=
  { solver with info_sets := solver.info_sets.map fun p => (p.1, p.2.discount 1.5 0.5) }

/-- `CFRSolver::train` with the same fuel bound on every traversal:
per iteration, bump the counter, traverse for players 0 and 1, and
discount every 100 iterations. -/
def trainFuel (fuel : Nat) : CFRSolver → Nat → Option CFRSolver
  | solver, 0 => some solver
  | solver, n + 1 =>
    let solver1 := { solver with iteration := solver.iteration + 1 }
    match cfr_recursive fuel solver1 0 0 1 1 with
    | none => none
    | some (_, solver2) =>
      match cfr_recursive fuel solver2 0 1 1 1 with
      | none => none
      | some (_, solver3) =>
        let solver4 := if solver3.iteration % 100 == 0 then discount_regrets solver3 else solver3
        trainFuel fuel solver4 n

/-- `train(n)` on a fresh solver terminates iff some finite recursion
depth suffices for all its traversals. -/
def trainTerminates (n : Nat) : Prop :=
  ∃ fuel, (trainFuel fuel initSolver n).isSome

theorem cfr_recursive_none : ∀ (fuel : Nat) (solver : CFRSolver) (depth player : Nat)
    (pp po : ℚ), cfr_recursive fuel solver depth player pp po = none := by
  intro fuel
  induction fuel with
  | zero => intro solver depth player pp po; rfl
  | succ f ih =>
    intro solver depth player pp po
    simp only [cfr_recursive, is_terminal_stub, is_chance_node_stub,
      get_current_player_stub, Bool.false_eq_true, if_false]
    by_cases hp : (0 : Nat) == player
    · simp only [hp, if_true]
      have hfirst : runActions
          (fun prob s => cfr_recursive f s (depth + 1) player (pp * prob) po)
          ((((slookup (solverEnsure solver get_info_set_key_stub).info_sets
              get_info_set_key_stub).getD initInfoSet).get_strategy
              get_legal_actions_stub)).1
          { solverEnsure solver get_info_set_key_stub with
            info_sets := sset (solverEnsure solver get_info_set_key_stub).info_sets
              get_info_set_key_stub
              ((((slookup (solverEnsure solver get_info_set_key_stub).info_sets
                  get_info_set_key_stub).getD initInfoSet).get_strategy
                  get_legal_actions_stub)).2 }
          get_legal_actions_stub = none := by
        simp [get_legal_actions_stub, runActions, ih]
      rw [hfirst]
    · simp only [hp, if_false]
      have hfirst : runActions
          (fun prob s => cfr_recursive f s (depth + 1) player pp (po * prob))
          ((((slookup (solverEnsure solver get_info_set_key_stub).info_sets
              get_info_set_key_stub).getD initInfoSet).get_strategy
              get_legal_actions_stub)).1
          { solverEnsure solver get_info_set_key_stub with
            info_sets := sset (solverEnsure solver get_info_set_key_stub).info_sets
              get_info_set_key_stub
              ((((slookup (solverEnsure solver get_info_set_key_stub).info_sets
                  get_info_set_key_stub).getD initInfoSet).get_strategy
                  get_legal_actions_stub)).2 }
          get_legal_actions_stub = none := by
        simp [get_legal_actions_stub, runActions, ih]
      rw [hfirst]
      rfl

theorem trainFuel_none (fuel n : Nat) (solver : CFRSolver) :
    trainFuel fuel solver (n + 1) = none := by
  simp only [trainFuel, cfr_recursive_none]

end CFREngine

namespace CFREngine

/-- Claim C4 (counterexample): `train(1)` on a freshly created
`CFRSolver` does not terminate — no recursion-depth bound, however
large, lets the traversal finish, because the stub hooks report "never
terminal, never chance, current player 0" with the non-empty action
list {0, 1, 2}, so `cfr_recursive` always recurses at least once more. -/
theorem train_one_diverges : ¬ trainTerminates 1 := by
  rintro ⟨fuel, hsome⟩
  rw [trainFuel_none fuel 0 initSolver] at hsome
  simp at hsome

/-- Claim C4 (amended): on a freshly created solver with the game-logic
hooks as present in the source, `train(n)` returns iff `n = 0`: the
zero-iteration call performs no traversal and returns immediately,
while for any `n ≥ 1` the first `cfr_recursive` traversal exceeds every
finite depth bound (the stubs make every node a player or opponent node
with three child actions and no terminal below). -/
theorem train_terminates_iff_zero (n : Nat) : trainTerminates n ↔ n = 0 := by
  constructor
  · intro h
    cases n with
    | zero => rfl
    | succ m =>
      obtain ⟨fuel, hsome⟩ := h
      rw [trainFuel_none fuel m initSolver] at hsome
      simp at hsome
  · intro h
    subst h
    exact ⟨0, rfl⟩

/-- `CFRSolver::get_strategy` (the public query): unknown keys get the
uniform distribution with no store access beyond the `find`; known keys
are read through `operator[]` and answered by `get_average_strategy`,
whose default-insertions are written back. -/
def CFRSolver.get_strategy (solver : CFRSolver) (info_set_key : String)
    (legal_actions : List Action) : List (Action × ℚ) × CFRSolver :=
  if (slookup solver.info_sets info_set_key).isSome then
    let iset := (slookup solver.info_sets info_set_key).getD initInfoSet
    let r := iset.get_average_strategy legal_actions
    (r.1, { solver with info_sets := sset solver.info_sets info_set_key r.2 })
  else
    (legal_actions.map fun a => (a, 1 / (legal_actions.length : ℚ)), solver)

/-- Claim C10: querying `get_strategy` for a key absent from the
information-set store returns the uniform distribution over the legal
actions and leaves the solver exactly as it was — no information set is
created and no stored regret, strategy sum or visit count changes. -/
theorem get_strategy_unknown_key_frame (solver : CFRSolver) (info_set_key : String)
    (legal_actions : List Action)
    (habsent : slookup solver.info_sets info_set_key = none) :
    CFRSolver.get_strategy solver info_set_key legal_actions =
      (legal_actions.map fun a => (a, 1 / (legal_actions.length : ℚ)), solver) := by
  simp [CFRSolver.get_strategy, habsent]

/-- Witness for `get_strategy_unknown_key_frame`: the fresh solver,
an unseen key and three legal actions. -/
theorem get_strategy_unknown_key_frame_witness :
    slookup initSolver.info_sets "unseen" = none ∧
    CFRSolver.get_strategy initSolver "unseen" [0, 1, 2] =
      ([0, 1, 2].map fun a => (a, 1 / (([0, 1, 2] : List Action).length : ℚ)), initSolver) :=
  ⟨rfl, get_strategy_unknown_key_frame initSolver "unseen" [0, 1, 2] rfl⟩

end CFREngine

namespace MCTSEngine

/-- `MCTSNode` from step8_mcts_complete.cpp: visit count, accumulated
value, incoming action (-1 at the root), owned children, untried
actions, terminal flag.  The C++ parent back-pointer is realized by the
recursive search returning through the path, which is how
`backpropagate` walks it. -/
inductive MCTSNode where
  | mk (visits : Nat) (total_value : ℚ) (action : Int)
      (children : List MCTSNode) (untried_actions : List Int) (is_terminal : Bool)

def MCTSNode.visits : MCTSNode → Nat
  | .mk v _ _ _ _ _ => v

def MCTSNode.total_value : MCTSNode → ℚ
  | .mk _ tv _ _ _ _ => tv

def MCTSNode.action : MCTSNode → Int
  | .mk _ _ a _ _ _ => a

def MCTSNode.children : MCTSNode → List MCTSNode
  | .mk _ _ _ cs _ _ => cs

def MCTSNode.untried_actions : MCTSNode → List Int
  | .mk _ _ _ _ ua _ => ua

def MCTSNode.terminal : MCTSNode → Bool
  | .mk _ _ _ _ _ t => t

/-- Game-logic stub `MCTSSearch::get_legal_actions_after` — empty. -/
def get_legal_actions_after (action : Int) : List Int := []

/-- Game-logic stub `MCTSSearch::is_terminal_state_after` — false. -/
def is_terminal_state_after (action : Int) : Bool := false

/-- Game-logic stub `MCTSSearch::evaluate_terminal_state` — 0. -/
def evaluate_terminal_state : ℚ := 0

/-- Game-logic stub `MCTSSearch::is_terminal_in_simulation` — false. -/
def is_terminal_in_simulation : Bool := false

/-- Game-logic stub `MCTSSearch::get_available_actions_simulation` — empty. -/
def get_available_actions_simulation : List Int := []

/-- Game-logic stub `MCTSSearch::evaluate_final_state` — 0. -/
def evaluate_final_state : ℚ := 0

/-- The random-playout loop of `MCTSSearch::simulate`, bounded by
`max_depth = 100`; the choice stream supplies the indices that
`std::uniform_int_distribution` would draw (that distribution's mapping
from `std::mt19937` output to an index is implementation-defined, so
the development quantifies over all choice streams).  With the source's
stubs the available-action list is empty and the loop exits at once. -/
def playout (cs : List Nat) (depth : Nat) : ℚ × List Nat :=
  if h : depth < 100 ∧ is_terminal_in_simulation = false then
    let actions := get_available_actions_simulation
    if actions.isEmpty then (evaluate_final_state, cs)
    else playout cs.tail (depth + 1)
  else (evaluate_final_state, cs)
termination_by 100 - depth
decreasing_by omega

/-- `MCTSSearch::simulate` (the apply/revert simulation hooks are no-op
stubs). -/
def simulate (cs : List Nat) (n : MCTSNode) : ℚ × List Nat :=
  if n.terminal then (evaluate_terminal_state, cs) else playout cs 0

theorem sizeOf_children_lt (v : Nat) (tv : ℚ) (a : Int) (children : List MCTSNode)
    (ua : List Int) (t : Bool) (c : MCTSNode) (hc : c ∈ children) :
    sizeOf c < sizeOf (MCTSNode.mk v tv a children ua t) := by
  have h1 : sizeOf c < sizeOf children := List.sizeOf_lt_of_mem hc
  have h2 : sizeOf (MCTSNode.mk v tv a children ua t) =
      1 + sizeOf v + sizeOf tv + sizeOf a + sizeOf children + sizeOf ua + sizeOf t := by
    simp
  omega

/-- One iteration of `MCTSSearch::search`, returning the updated node
and the value added at it (the parent adds the negation, realizing
`backpropagate`'s sign flip per step).  The selection phase descends
while the node has no untried actions but has children; which child the
UCB1 argmax picks is supplied by the choice stream, since UCB1 compares
`value/visits + 1.41 * sqrt(ln(parent.visits)/visits)` over IEEE
doubles — every theorem below holds for every choice, hence for the
actual argmax.  The expansion phase pops a chosen untried action and
creates the child via the game stubs; then the new node (or the node
itself when expansion is impossible) is simulated and the value walked
back up. -/
def step (cs : List Nat) : MCTSNode → MCTSNode × ℚ × List Nat
  | .mk v tv a children untried term =>
    if hsel : untried = [] ∧ 0 < children.length then
      let i : Fin children.length :=
        ⟨(cs.headD 0) % children.length, Nat.mod_lt _ hsel.2⟩
      let c := children.get i
      let r := step cs.tail c
      (.mk (v + 1) (tv + (- r.2.1)) a (children.set i r.1) untried term,
       - r.2.1, r.2.2)
    else if untried ≠ [] ∧ term = false then
      let j := (cs.headD 0) % untried.length
      let act := untried.getD j 0
      let child0 : MCTSNode :=
        .mk 0 0 act [] (get_legal_actions_after act) (is_terminal_state_after act)
      let sr := simulate cs.tail child0
      let child1 : MCTSNode :=
        .mk 1 sr.1 act [] (get_legal_actions_after act) (is_terminal_state_after act)
      (.mk (v + 1) (tv + (- sr.1)) a (children ++ [child1]) (untried.eraseIdx j) term,
       - sr.1, sr.2)
    else
      let sr := simulate cs (.mk v tv a children untried term)
      (.mk (v + 1) (tv + sr.1) a children untried term, sr.1, sr.2)
termination_by n => sizeOf n
decreasing_by
  apply sizeOf_children_lt
  apply List.get_mem

/-- `MCTSSearch::search(iterations)`: iterate `step`, threading the
choice stream. -/
def searchLoop : Nat → MCTSNode → List Nat → MCTSNode
  | 0, n, _ => n
  | k + 1, n, cs =>
    let r := step cs n
    searchLoop k r.1 r.2.2

/-- The root node the `MCTSSearch` constructor builds: untried actions
are the supplied legal actions, everything else default. -/
def initRoot (legal_actions : List Int) : MCTSNode :=
  .mk 0 0 (-1) [] legal_actions false

/-- Total visits over the root's children. -/
def childVisitSum (n : MCTSNode) : Nat := (n.children.map MCTSNode.visits).sum

/-- `MCTSSearch::get_policy_distribution`: zero-filled when no child
has been visited, otherwise each child's visit share. -/
def get_policy_distribution (root : MCTSNode) : List ℚ :=
  let total_visits := childVisitSum root
  if 0 < total_visits then
    root.children.map fun c => (c.visits : ℚ) / (total_visits : ℚ)
  else root.children.map fun _ => 0

theorem visits_mk (v : Nat) (tv : ℚ) (a : Int) (c : List MCTSNode) (u : List Int)
    (t : Bool) : (MCTSNode.mk v tv a c u t).visits = v := rfl

theorem children_mk (v : Nat) (tv : ℚ) (a : Int) (c : List MCTSNode) (u : List Int)
    (t : Bool) : (MCTSNode.mk v tv a c u t).children = c := rfl

theorem untried_mk (v : Nat) (tv : ℚ) (a : Int) (c : List MCTSNode) (u : List Int)
    (t : Bool) : (MCTSNode.mk v tv a c u t).untried_actions = u := rfl

theorem terminal_mk (v : Nat) (tv : ℚ) (a : Int) (c : List MCTSNode) (u : List Int)
    (t : Bool) : (MCTSNode.mk v tv a c u t).terminal = t := rfl

theorem step_visits (cs : List Nat) (n : MCTSNode) :
    (step cs n).1.visits = n.visits + 1 := by
  cases n with
  | mk v tv a children untried term =>
    simp only [step]
    split
    · simp [visits_mk]
    · split
      · simp [visits_mk]
      · simp [visits_mk]

theorem sum_map_visits_set (l : List MCTSNode) : ∀ (i : Nat) (hi : i < l.length)
    (x : MCTSNode),
    ((l.set i x).map MCTSNode.visits).sum + (l.get ⟨i, hi⟩).visits =
      (l.map MCTSNode.visits).sum + x.visits := by
  induction l with
  | nil => intro i hi x; simp at hi
  | cons hd tl ih =>
    intro i hi x
    cases i with
    | zero => simp [List.set]; omega
    | succ j =>
      simp only [List.set, List.map_cons, List.sum_cons, List.get_cons_succ]
      have := ih j (by simpa using hi) x
      omega

theorem step_spec (cs : List Nat) (n : MCTSNode) (hterm : n.terminal = false)
    (hinv : n.untried_actions ≠ [] ∨ n.children ≠ []) :
    (step cs n).1.terminal = false ∧
    ((step cs n).1.untried_actions ≠ [] ∨ (step cs n).1.children ≠ []) ∧
    childVisitSum (step cs n).1 = childVisitSum n + 1 := by
  cases n with
  | mk v tv a children untried term =>
    rw [terminal_mk] at hterm
    rw [untried_mk, children_mk] at hinv
    simp only [step]
    split
    case isTrue hsel =>
      refine ⟨hterm, Or.inr ?_, ?_⟩
      · have : (children.set ((cs.headD 0) % children.length)
            (step cs.tail (children.get ⟨(cs.headD 0) % children.length,
              Nat.mod_lt _ hsel.2⟩)).1).length = children.length := by
          simp
        intro hcon
        rw [children_mk] at hcon
        rw [hcon] at this
        simp at this
        omega
      · simp only [childVisitSum, children_mk]
        have hset := sum_map_visits_set children ((cs.headD 0) % children.length)
          (Nat.mod_lt _ hsel.2)
          (step cs.tail (children.get ⟨(cs.headD 0) % children.length,
            Nat.mod_lt _ hsel.2⟩)).1
        have hv := step_visits cs.tail
          (children.get ⟨(cs.headD 0) % children.length, Nat.mod_lt _ hsel.2⟩)
        omega
    case isFalse hnosel =>
      split
      case isTrue hexp =>
        refine ⟨hterm, Or.inr ?_, ?_⟩
        · rw [children_mk]
          simp
        · simp only [childVisitSum, children_mk, List.map_append, List.sum_append]
          simp [visits_mk]
      case isFalse hnoexp =>
        exfalso
        rw [hterm] at hnoexp
        have hu : untried = [] := by
          by_cases hcase : untried = []
          · exact hcase
          · exact absurd ⟨hcase, rfl⟩ hnoexp
        have hc : children = [] := by
          by_cases hcase : 0 < children.length
          · exact absurd ⟨hu, hcase⟩ hnosel
          · simpa using List.length_eq_zero.mp (by omega)
        rcases hinv with h | h
        · exact h hu
        · exact h hc

theorem searchLoop_spec : ∀ (k : Nat) (n : MCTSNode) (cs : List Nat),
    n.terminal = false → (n.untried_actions ≠ [] ∨ n.children ≠ []) →
    (searchLoop k n cs).terminal = false ∧
    ((searchLoop k n cs).untried_actions ≠ [] ∨ (searchLoop k n cs).children ≠ []) ∧
    childVisitSum (searchLoop k n cs) = childVisitSum n + k := by
  intro k
  induction k with
  | zero => intro n cs h1 h2; exact ⟨h1, h2, by simp [searchLoop]⟩
  | succ m ih =>
    intro n cs h1 h2
    have hs := step_spec cs n h1 h2
    obtain ⟨ha, hb, hc⟩ := ih (step cs n).1 (step cs n).2.2 hs.1 hs.2.1
    exact ⟨ha, hb, by simp only [searchLoop]; rw [hc, hs.2.2]; omega⟩

theorem sum_map_div_visits (l : List MCTSNode) (t : ℚ) :
    (l.map fun c => (c.visits : ℚ) / t).sum = ((l.map MCTSNode.visits).sum : ℚ) / t := by
  induction l with
  | nil => simp
  | cons hd tl ih =>
    simp only [List.map_cons, List.sum_cons, ih, Nat.cast_add, add_div]

/-- Claim C8: for a search created with a non-empty legal-action list,
after any `search(k)` with `k ≥ 1` (and any selection/expansion choice
stream `cs`) the policy distribution has one entry per root child, each
entry is that child's visit count divided by the total visits over the
root's children, and the entries sum to 1 (the total equals `k`, since
every iteration increments exactly one root child). -/
theorem mcts_policy_distribution (legal_actions : List Int) (cs : List Nat)
    (k : Nat) (hlegal : legal_actions ≠ []) (hk : 1 ≤ k) :
    (get_policy_distribution (searchLoop k (initRoot legal_actions) cs)).length =
      (searchLoop k (initRoot legal_actions) cs).children.length ∧
    get_policy_distribution (searchLoop k (initRoot legal_actions) cs) =
      (searchLoop k (initRoot legal_actions) cs).children.map
        (fun c => (c.visits : ℚ) /
          (childVisitSum (searchLoop k (initRoot legal_actions) cs) : ℚ)) ∧
    (get_policy_distribution (searchLoop k (initRoot legal_actions) cs)).sum = 1 := by
  have hroot : (initRoot legal_actions).terminal = false := rfl
  have hinv : (initRoot legal_actions).untried_actions ≠ [] ∨
      (initRoot legal_actions).children ≠ [] := Or.inl hlegal
  obtain ⟨-, -, hsum⟩ := searchLoop_spec k (initRoot legal_actions) cs hroot hinv
  have hzero : childVisitSum (initRoot legal_actions) = 0 := rfl
  rw [hzero] at hsum
  have hpos : 0 < childVisitSum (searchLoop k (initRoot legal_actions) cs) := by omega
  refine ⟨?_, ?_, ?_⟩
  · simp [get_policy_distribution, if_pos hpos]
  · simp [get_policy_distribution, if_pos hpos]
  · simp only [get_policy_distribution, if_pos hpos]
    rw [sum_map_div_visits]
    have hne : ((childVisitSum (searchLoop k (initRoot legal_actions) cs) : Nat) : ℚ) ≠ 0 := by
      exact_mod_cast Nat.pos_iff_ne_zero.mp hpos
    rw [show ((searchLoop k (initRoot legal_actions) cs).children.map MCTSNode.visits).sum =
      childVisitSum (searchLoop k (initRoot legal_actions) cs) from rfl]
    exact div_self hne

/-- Witness for `mcts_policy_distribution`: one legal action, one
iteration, the empty choice stream. -/
theorem mcts_policy_distribution_witness :
    (([0] : List Int) ≠ [] ∧ 1 ≤ 1) ∧
    ((get_policy_distribution (searchLoop 1 (initRoot [0]) [])).length =
       (searchLoop 1 (initRoot [0]) []).children.length ∧
     get_policy_distribution (searchLoop 1 (initRoot [0]) []) =
       (searchLoop 1 (initRoot [0]) []).children.map
         (fun c => (c.visits : ℚ) / (childVisitSum (searchLoop 1 (initRoot [0]) []) : ℚ)) ∧
     (get_policy_distribution (searchLoop 1 (initRoot [0]) [])).sum = 1) :=
  ⟨⟨by decide, by decide⟩, mcts_policy_distribution [0] [] 1 (by decide) (by decide)⟩

end MCTSEngine
